import Mathlib

/-!
Verification of the saorsa-gossip core: a shallow embedding of the
Plumtree pub/sub dissemination layer (crates/pubsub/src/lib.rs) and the
HyParView + SWIM membership layer (crates/membership/src/lib.rs),
together with theorems settling the specification claims.

Modelling conventions:
* `PeerId`, `TopicId` and `MessageId` are opaque 32-byte identifiers in the
  source (equality by bytes); they are modelled as `Nat`.
* Byte strings (`Bytes` in Rust) are modelled as `List Nat`.
* `Instant` timestamps are modelled as `Nat`; `duration_since` is natural
  subtraction (saturating, as for monotone instants).
* Rust `HashSet<PeerId>` is modelled as a duplicate-free `List PeerId`;
  the unspecified hash-set iteration order (`iter()`, `iter().next()`,
  `iter().take(n)`) is modelled by the list order.
* Rust `HashMap` is modelled as an association list with first-match lookup
  and replace-on-insert.
* `lru::LruCache` is modelled as an association list ordered from most to
  least recently used, with capacity eviction at the tail.
* Tokio channels and the transport are I/O: a handler's sends are returned
  as a list of `(peer, message)` pairs and deliveries to local subscribers
  as a list of `(source peer, payload)` events; bincode serialization and
  transport sends, the only fallible steps of the otherwise pure handlers,
  never fail in the model.  `Result<(), Error>` becomes `Except String`,
  and an `Except.error` result means the early return fired, leaving the
  locked state unchanged.
-/

/-- Peer identifier (opaque 32-byte id in the source, modelled as `Nat`). -/
abbrev PeerId := Nat

/-- Topic identifier. -/
abbrev TopicId := Nat

/-- Message identifier (`type MessageIdType = [u8; 32]`). -/
abbrev MessageId := Nat

/-- Byte string. -/
abbrev Bytes := List Nat

/-- Modelled from the spec: the message kinds of the wire envelope
(`saorsa_gossip_types::MessageKind`, whose crate is not in the sources):
kind ∈ \x7bEAGER, IHAVE, IWANT, PRUNE, GRAFT, PING, ACK, JOIN, SHUFFLE,
SHUFFLE_REPLY, DISCONNECT\x7d. -/
inductive MessageKind
  | eager
  | ihave
  | iwant
  | prune
  | graft
  | ping
  | ack
  | join
  | shuffle
  | shuffleReply
  | disconnect
  deriving DecidableEq, Repr

/-- Modelled from the spec: `saorsa_gossip_types::MessageHeader`
(crate not in the sources): \x7b version:u8, topic, msgId, kind, hop:u8,
ttl:u8 \x7d. -/
structure MessageHeader where
  version : Nat
  topic : TopicId
  msg_id : MessageId
  kind : MessageKind
  hop : Nat
  ttl : Nat
  deriving DecidableEq, Repr

/-- `GossipMessage`: header, optional payload, signature. -/
structure GossipMessage where
  header : MessageHeader
  payload : Option Bytes
  signature : Bytes
  deriving DecidableEq, Repr

/-- `CachedMessage`: payload, insertion timestamp, header. -/
structure CachedMessage where
  payload : Bytes
  timestamp : Nat
  header : MessageHeader
  deriving DecidableEq, Repr

/-- First-match lookup in an association list (HashMap model). -/
def alookup {β : Type} : List (Nat × β) → Nat → Option β
  | [], _ => none
  | e :: rest, k => if e.1 = k then some e.2 else alookup rest k

/-- `HashMap::insert`: replace the value at an existing key, else add the
binding. -/
def aInsert {β : Type} (l : List (Nat × β)) (k : Nat) (v : β) : List (Nat × β) :=
  if (alookup l k).isSome then l.map (fun e => if e.1 = k then (k, v) else e)
  else (k, v) :: l

/-- `HashSet::insert`: no-op when the element is present. -/
def hsInsert (s : List PeerId) (p : PeerId) : List PeerId :=
  if p ∈ s then s else p :: s

/-- Maximum message cache size per topic (`MAX_CACHE_SIZE = 10_000`). -/
def MAX_CACHE_SIZE : Nat := 10000

/-- Message cache TTL in seconds (`CACHE_TTL_SECS = 300`). -/
def CACHE_TTL_SECS : Nat := 300

/-- Target eager peer degree, lower bound (`MIN_EAGER_DEGREE = 6`). -/
def MIN_EAGER_DEGREE : Nat := 6

/-- Target eager peer degree, upper bound (`MAX_EAGER_DEGREE = 12`). -/
def MAX_EAGER_DEGREE : Nat := 12

/-- LRU cache model: association list, most recently used first. -/
abbrev LruCache := List (MessageId × CachedMessage)

/-- Pure key lookup (`LruCache::contains` / peeking): no promotion. -/
def lruLookup (c : LruCache) (k : MessageId) : Option CachedMessage :=
  alookup c k

/-- `LruCache::put`: insert or update the entry, making it most recently
used; evict the least recently used entry if the capacity is exceeded. -/
def lruPut (c : LruCache) (k : MessageId) (v : CachedMessage) : LruCache :=
  ((k, v) :: c.filter (fun e => e.1 ≠ k)).take MAX_CACHE_SIZE

/-- `LruCache::get`: on a hit, return the entry and promote it to most
recently used; on a miss the cache is untouched. -/
def lruGet (c : LruCache) (k : MessageId) : Option CachedMessage × LruCache :=
  match lruLookup c k with
  | some v => (some v, (k, v) :: c.filter (fun e => e.1 ≠ k))
  | none => (none, c)

/-- `LruCache::pop`: remove the entry with the given key. -/
def lruPop (c : LruCache) (k : MessageId) : LruCache :=
  c.filter (fun e => e.1 ≠ k)

/-- Per-topic state (`TopicState`).  The subscriber sinks are channels
(I/O); deliveries to them are returned by the handlers as events, so the
`subscribers` vector is not part of the modelled state. -/
structure TopicState where
  eager_peers : List PeerId
  lazy_peers : List PeerId
  message_cache : LruCache
  pending_ihave : List MessageId
  outstanding_iwants : List (MessageId × PeerId × Nat)
  deriving DecidableEq, Repr

/-- `TopicState::new`. -/
def TopicState.new : TopicState :=
  { eager_peers := [], lazy_peers := [], message_cache := [],
    pending_ihave := [], outstanding_iwants := [] }

/-- `TopicState::has_message`: check if the message is in the cache. -/
def has_message (s : TopicState) (msg_id : MessageId) : Bool :=
  (lruLookup s.message_cache msg_id).isSome

/-- `TopicState::cache_message`: add the message to the cache, timestamped
now. -/
def cache_message (s : TopicState) (msg_id : MessageId) (payload : Bytes)
    (header : MessageHeader) (now : Nat) : TopicState :=
  { s with message_cache :=
      lruPut s.message_cache msg_id ⟨payload, now, header⟩ }

/-- `TopicState::clean_cache`: drop the entries whose age exceeds
`CACHE_TTL_SECS`. -/
def clean_cache (s : TopicState) (now : Nat) : TopicState :=
  { s with message_cache :=
      s.message_cache.filter (fun e => decide (now - e.2.timestamp ≤ CACHE_TTL_SECS)) }

/-- `TopicState::prune_peer`: move the peer from eager to lazy (no-op when
the peer is not eager). -/
def prune_peer (s : TopicState) (peer : PeerId) : TopicState :=
  if peer ∈ s.eager_peers then
    { s with eager_peers := s.eager_peers.erase peer,
             lazy_peers := hsInsert s.lazy_peers peer }
  else s

/-- `TopicState::graft_peer`: move the peer from lazy to eager (no-op when
the peer is not lazy). -/
def graft_peer (s : TopicState) (peer : PeerId) : TopicState :=
  if peer ∈ s.lazy_peers then
    { s with lazy_peers := s.lazy_peers.erase peer,
             eager_peers := hsInsert s.eager_peers peer }
  else s

/-- `TopicState::maintain_degree`: promote lazy peers when the eager set is
below `MIN_EAGER_DEGREE`, demote eager peers when above
`MAX_EAGER_DEGREE`. -/
def maintain_degree (s : TopicState) : TopicState :=
  let eager_count := s.eager_peers.length
  if eager_count < MIN_EAGER_DEGREE ∧ s.lazy_peers ≠ [] then
    (s.lazy_peers.take (MIN_EAGER_DEGREE - eager_count)).foldl graft_peer s
  else if eager_count > MAX_EAGER_DEGREE then
    (s.eager_peers.take (eager_count - MAX_EAGER_DEGREE)).foldl prune_peer s
  else s

/-- `PlumtreePubSub::initialize_topic_peers`: start with all given peers as
eager. -/
def init_topic_peers (s : TopicState) (peers : List PeerId) : TopicState :=
  { s with eager_peers := peers.foldl hsInsert s.eager_peers }

/-- `PlumtreePubSub::verify_signature`: placeholder, always true. -/
def verify_signature (_header : MessageHeader) (_signature : Bytes) : Bool :=
  true

/-- `PlumtreePubSub::sign_message`: placeholder, empty signature. -/
def sign_message (_header : MessageHeader) : Bytes :=
  []

/-- `bincode::serialize` of a list of message ids, abstracted as an
injective encoding into the abstract byte representation. -/
def encodeIds (ids : List MessageId) : Bytes :=
  ids

/-- Result of a pub/sub handler: the new topic state, the messages sent via
the transport, and the payloads delivered to local subscribers. -/
structure PubSubEffects where
  state : TopicState
  sent : List (PeerId × GossipMessage)
  delivered : List (PeerId × Bytes)
  deriving DecidableEq, Repr

/-- `PlumtreePubSub::publish_local`.  The blake3-based
`calculate_msg_id(topic, payload)` lives in the types crate and is
abstracted: the computed id is taken as the argument `msg_id`. -/
def publish_local (s : TopicState) (self_peer : PeerId) (topic : TopicId)
    (msg_id : MessageId) (payload : Bytes) (now : Nat) :
    Except String PubSubEffects :=
  let header : MessageHeader :=
    { version := 1, topic := topic, msg_id := msg_id,
      kind := MessageKind.eager, hop := 0, ttl := 10 }
  let signature := sign_message header
  let message : GossipMessage :=
    { header := header, payload := some payload, signature := signature }
  let s1 := cache_message s msg_id payload header now
  let sent := s1.eager_peers.map (fun p => (p, message))
  let s2 := { s1 with pending_ihave := s1.pending_ihave ++ [msg_id] }
  Except.ok { state := s2, sent := sent, delivered := [(self_peer, payload)] }

/-- `PlumtreePubSub::handle_eager`. -/
def handle_eager (s : TopicState) (sender : PeerId) (message : GossipMessage)
    (now : Nat) : Except String PubSubEffects :=
  let msg_id := message.header.msg_id
  if !(verify_signature message.header message.signature) then
    Except.error "Invalid signature"
  else if has_message s msg_id then
    Except.ok { state := prune_peer s sender, sent := [], delivered := [] }
  else
    match message.payload with
    | none => Except.error "EAGER missing payload"
    | some payload =>
      let s1 := cache_message s msg_id payload message.header now
      let delivered := [(sender, payload)]
      let targets := s1.eager_peers.filter (fun p => p ≠ sender)
      let s2 := { s1 with pending_ihave := s1.pending_ihave ++ [msg_id] }
      Except.ok { state := s2, sent := targets.map (fun p => (p, message)),
                  delivered := delivered }

/-- The per-id loop of `PlumtreePubSub::handle_ihave`: record an
outstanding IWANT for each id neither cached nor already requested; return
the updated state together with the list of requested ids. -/
def ihave_loop (s : TopicState) (sender : PeerId) (now : Nat) :
    List MessageId → TopicState × List MessageId
  | [] => (s, [])
  | msg_id :: rest =>
    if has_message s msg_id then ihave_loop s sender now rest
    else if (alookup s.outstanding_iwants msg_id).isSome then
      ihave_loop s sender now rest
    else
      let s1 := { s with outstanding_iwants :=
                    aInsert s.outstanding_iwants msg_id (sender, now) }
      let r := ihave_loop s1 sender now rest
      (r.1, msg_id :: r.2)

/-- The IWANT message built by `handle_ihave`: the first requested id is
used as the header id, the payload carries the serialized id list. -/
def iwant_message (topic : TopicId) (requested : List MessageId) : GossipMessage :=
  { header := { version := 1, topic := topic, msg_id := requested.headD 0,
                kind := MessageKind.iwant, hop := 0, ttl := 10 },
    payload := some (encodeIds requested), signature := [] }

/-- `PlumtreePubSub::handle_ihave`. -/
def handle_ihave (s : TopicState) (sender : PeerId) (topic : TopicId)
    (msg_ids : List MessageId) (now : Nat) :
    Except String (TopicState × List (PeerId × GossipMessage)) :=
  let r := ihave_loop s sender now msg_ids
  if r.2.isEmpty then Except.ok (r.1, [])
  else Except.ok (r.1, [(sender, iwant_message topic r.2)])

/-- The per-id loop of `PlumtreePubSub::handle_iwant`: collect the cached
entries for the requested ids (promoting them in the LRU order) and graft
the requester on every hit. -/
def iwant_loop (s : TopicState) (sender : PeerId) :
    List MessageId → TopicState × List (MessageId × CachedMessage)
  | [] => (s, [])
  | msg_id :: rest =>
    match lruGet s.message_cache msg_id with
    | (some cached, cache1) =>
      let s1 := graft_peer { s with message_cache := cache1 } sender
      let r := iwant_loop s1 sender rest
      (r.1, (msg_id, cached) :: r.2)
    | (none, _) => iwant_loop s sender rest

/-- `PlumtreePubSub::handle_iwant`. -/
def handle_iwant (s : TopicState) (sender : PeerId) (msg_ids : List MessageId) :
    Except String (TopicState × List (PeerId × GossipMessage)) :=
  let r := iwant_loop s sender msg_ids
  Except.ok (r.1, r.2.map (fun e =>
    (sender, { header := e.2.header, payload := some e.2.payload,
               signature := sign_message e.2.header })))

/-- Default active view degree (`DEFAULT_ACTIVE_DEGREE = 8`). -/
def DEFAULT_ACTIVE_DEGREE : Nat := 8

/-- Maximum active view degree (`MAX_ACTIVE_DEGREE = 12`). -/
def MAX_ACTIVE_DEGREE : Nat := 12

/-- Default passive view degree (`DEFAULT_PASSIVE_DEGREE = 64`). -/
def DEFAULT_PASSIVE_DEGREE : Nat := 64

/-- Maximum passive view degree (`MAX_PASSIVE_DEGREE = 128`). -/
def MAX_PASSIVE_DEGREE : Nat := 128

/-- SWIM suspect timeout in seconds (`SWIM_SUSPECT_TIMEOUT_SECS = 3`). -/
def SWIM_SUSPECT_TIMEOUT_SECS : Nat := 3

/-- SWIM peer liveness state (`PeerState`). -/
inductive PeerState
  | alive
  | suspect
  | dead
  deriving DecidableEq, Repr

/-- `SwimPeerEntry`: state with the timestamp of its last update. -/
structure SwimPeerEntry where
  state : PeerState
  last_update : Nat
  deriving DecidableEq, Repr

/-- The SWIM detector's peer-state map (`SwimDetector.states`). -/
abbrev SwimStates := List (PeerId × SwimPeerEntry)

/-- `SwimDetector::mark_alive`: set the state to Alive, reset the
timestamp. -/
def mark_alive (st : SwimStates) (peer : PeerId) (now : Nat) : SwimStates :=
  aInsert st peer ⟨PeerState.alive, now⟩

/-- `SwimDetector::mark_suspect`: only an Alive peer becomes Suspect; the
timestamp is reset. -/
def mark_suspect (st : SwimStates) (peer : PeerId) (now : Nat) : SwimStates :=
  match alookup st peer with
  | some entry =>
    if entry.state = PeerState.alive then
      aInsert st peer ⟨PeerState.suspect, now⟩
    else st
  | none => st

/-- `SwimDetector::mark_dead`: unconditional transition to Dead. -/
def mark_dead (st : SwimStates) (peer : PeerId) (now : Nat) : SwimStates :=
  aInsert st peer ⟨PeerState.dead, now⟩

/-- One iteration of the loop spawned by
`SwimDetector::spawn_suspect_timeout_task`: every Suspect entry whose age
strictly exceeds the suspect timeout is re-inserted as Dead. -/
def suspect_timeout_tick (st : SwimStates) (suspect_timeout : Nat) (now : Nat) :
    SwimStates :=
  let to_mark_dead := (st.filter (fun e =>
    e.2.state = PeerState.suspect && decide (now - e.2.last_update > suspect_timeout))).map
    (fun e => e.1)
  to_mark_dead.foldl (fun acc peer => aInsert acc peer ⟨PeerState.dead, now⟩) st

/-- `HyParViewMembership` state: the two views, the SWIM detector map and
the configured degrees. -/
structure MembershipState where
  active : List PeerId
  passive : List PeerId
  swim : SwimStates
  active_degree : Nat
  passive_degree : Nat
  deriving DecidableEq, Repr

/-- `HyParViewMembership::new` with empty views. -/
def MembershipState.new (active_degree passive_degree : Nat) : MembershipState :=
  { active := [], passive := [], swim := [],
    active_degree := active_degree, passive_degree := passive_degree }

/-- `HyParViewMembership::add_active`: if the active view is full, demote
one peer (an arbitrary iteration-order choice, modelled as the list head)
to the passive view when it has room; insert the peer into the active view;
mark it Alive. -/
def add_active (s : MembershipState) (peer : PeerId) (now : Nat) :
    Except String MembershipState :=
  let s1 :=
    if s.active.length ≥ s.active_degree then
      match s.active.head? with
      | some to_demote =>
        let act := s.active.erase to_demote
        let pas :=
          if s.passive.length < s.passive_degree then hsInsert s.passive to_demote
          else s.passive
        { s with active := act, passive := pas }
      | none => s
    else s
  let s2 := { s1 with active := hsInsert s1.active peer }
  Except.ok { s2 with swim := mark_alive s2.swim peer now }

/-- `HyParViewMembership::remove_active`: remove the peer from the active
view; mark it Dead only when it was actually removed. -/
def remove_active (s : MembershipState) (peer : PeerId) (now : Nat) :
    Except String MembershipState :=
  let removed := peer ∈ s.active
  let s1 := { s with active := s.active.erase peer }
  Except.ok (if removed then { s1 with swim := mark_dead s1.swim peer now } else s1)

/-- `HyParViewMembership::promote`: remove the peer from the passive view
and, when it was passive, add it to the active view through `add_active`. -/
def promote (s : MembershipState) (peer : PeerId) (now : Nat) :
    Except String MembershipState :=
  let was_passive := peer ∈ s.passive
  let s1 := { s with passive := s.passive.erase peer }
  if was_passive then add_active s1 peer now else Except.ok s1

/-- One iteration of the loop spawned by
`HyParViewMembership::spawn_degree_maintenance_task`: with the view sizes
snapshotted at the start of the tick, promote passive peers while the
active view is below `DEFAULT_ACTIVE_DEGREE`, demote the excess above
`MAX_ACTIVE_DEGREE` (moved to the passive view only while it has room),
and trim the passive view above `MAX_PASSIVE_DEGREE`. -/
def degree_maintenance_tick (s : MembershipState) : MembershipState :=
  let active_count := s.active.length
  let passive_count := s.passive.length
  let s1 :=
    if active_count < DEFAULT_ACTIVE_DEGREE ∧ s.passive ≠ [] then
      (s.passive.take (DEFAULT_ACTIVE_DEGREE - active_count)).foldl
        (fun st p => { st with passive := st.passive.erase p,
                               active := hsInsert st.active p }) s
    else s
  let s2 :=
    if active_count > MAX_ACTIVE_DEGREE then
      (s1.active.take (active_count - MAX_ACTIVE_DEGREE)).foldl
        (fun st p =>
          let st1 := { st with active := st.active.erase p }
          if st1.passive.length < MAX_PASSIVE_DEGREE then
            { st1 with passive := hsInsert st1.passive p }
          else st1) s1
    else s1
  if passive_count > MAX_PASSIVE_DEGREE then
    (s2.passive.take (passive_count - MAX_PASSIVE_DEGREE)).foldl
      (fun st p => { st with passive := st.passive.erase p }) s2
  else s2

/-! Concrete example states used by counterexamples and witnesses. -/

/-- Header of the example EAGER message (topic 7, id 99). -/
def exHeader : MessageHeader :=
  { version := 1, topic := 7, msg_id := 99, kind := MessageKind.eager,
    hop := 0, ttl := 10 }

/-- Example EAGER message with a payload. -/
def exEagerMsg : GossipMessage :=
  { header := exHeader, payload := some [104, 105], signature := [] }

/-- Topic state in which message 99 is already cached and peer 2 is
eager. -/
def exDupState : TopicState :=
  { eager_peers := [2], lazy_peers := [],
    message_cache := [(99, ⟨[104, 105], 0, exHeader⟩)],
    pending_ihave := [99], outstanding_iwants := [] }

/-- Example EAGER whose hop already equals its ttl (hop = ttl = 10). -/
def c2Msg : GossipMessage :=
  { header := { version := 1, topic := 7, msg_id := 50,
                kind := MessageKind.eager, hop := 10, ttl := 10 },
    payload := some [1], signature := [] }

/-- Topic state with the single eager peer 5 and an empty cache. -/
def c2State : TopicState := init_topic_peers TopicState.new [5]

/-- A run of `add_active` operations from empty views at the default
degrees: fill the active view with peers 1–8, add peer 9 (demoting peer 8
to the passive view), then call `add_active 8` again. -/
def c3_trace : Except String MembershipState :=
  [1, 2, 3, 4, 5, 6, 7, 8, 9, 8].foldlM (fun s p => add_active s p 0)
    (MembershipState.new DEFAULT_ACTIVE_DEGREE DEFAULT_PASSIVE_DEGREE)

/-- Membership state with an empty active view and peer 5 passive. -/
def c3wState : MembershipState :=
  { active := [], passive := [5], swim := [],
    active_degree := DEFAULT_ACTIVE_DEGREE,
    passive_degree := DEFAULT_PASSIVE_DEGREE }

/-- A run of pub/sub operations from the empty topic state: peer 1 starts
eager, its duplicate EAGER prunes it to lazy, then
`initialize_topic_peers` is called again with peer 1. -/
def c4_trace : Except String TopicState :=
  (handle_eager (init_topic_peers TopicState.new [1]) 1 exEagerMsg 0).bind
    (fun o => (handle_eager o.state 1 exEagerMsg 1).map
      (fun o2 => init_topic_peers o2.state [1]))

/-- Membership state whose active view holds exactly 6 peers and whose
passive view is non-empty. -/
def c5State : MembershipState :=
  { active := [1, 2, 3, 4, 5, 6], passive := [7, 8, 9], swim := [],
    active_degree := DEFAULT_ACTIVE_DEGREE,
    passive_degree := DEFAULT_PASSIVE_DEGREE }

/-- Topic state with message 99 cached and peer 3 lazy. -/
def c7State : TopicState :=
  { eager_peers := [], lazy_peers := [3],
    message_cache := [(99, ⟨[104, 105], 0, exHeader⟩)],
    pending_ihave := [], outstanding_iwants := [] }

/-- SWIM state map with peer 1 Suspect since time 10. -/
def c8State : SwimStates := [(1, ⟨PeerState.suspect, 10⟩)]

/-- Example EAGER message without a payload (id 77, not cached below). -/
def c9Msg : GossipMessage :=
  { header := { version := 1, topic := 7, msg_id := 77,
                kind := MessageKind.eager, hop := 0, ttl := 10 },
    payload := none, signature := [] }

/-- Membership state with peer 1 active and a tracked SWIM entry; peer 9
is not in the active view. -/
def c10State : MembershipState :=
  { active := [1], passive := [2], swim := [(1, ⟨PeerState.alive, 0⟩)],
    active_degree := DEFAULT_ACTIVE_DEGREE,
    passive_degree := DEFAULT_PASSIVE_DEGREE }

/-- Topic state with peer 2 as the only eager peer and an empty cache. -/
def c1FirstState : TopicState := init_topic_peers TopicState.new [2]

/-- The result of handling `exEagerMsg` (a fresh message) on
`c1FirstState`: the message is cached and delivered; the only eager peer
is the sender, so nothing is forwarded. -/
def c1Out : PubSubEffects :=
  { state := { eager_peers := [2], lazy_peers := [],
               message_cache := [(99, ⟨[104, 105], 0, exHeader⟩)],
               pending_ihave := [99], outstanding_iwants := [] },
    sent := [], delivered := [(2, [104, 105])] }

/-- The result of publishing payload `[9]` with id 42 on the empty topic
state at time 3. -/
def c2PubOut : PubSubEffects :=
  { state := { eager_peers := [], lazy_peers := [],
               message_cache :=
                 [(42, ⟨[9], 3, ⟨1, 7, 42, MessageKind.eager, 0, 10⟩⟩)],
               pending_ihave := [42], outstanding_iwants := [] },
    sent := [], delivered := [(1, [9])] }

/-- The result of handling `exEagerMsg` (fresh) on `c2State` at time 4:
cached, delivered, and forwarded to eager peer 5. -/
def c2EagOut : PubSubEffects :=
  { state := { eager_peers := [5], lazy_peers := [],
               message_cache := [(99, ⟨[104, 105], 4, exHeader⟩)],
               pending_ihave := [99], outstanding_iwants := [] },
    sent := [(5, exEagerMsg)], delivered := [(2, [104, 105])] }

/-- The result of `add_active c3wState 5 0`: peer 5 enters the active view
while remaining in the passive view. -/
def c3wOut : MembershipState :=
  { active := [5], passive := [5], swim := [(5, ⟨PeerState.alive, 0⟩)],
    active_degree := DEFAULT_ACTIVE_DEGREE,
    passive_degree := DEFAULT_PASSIVE_DEGREE }

/-- Topic state with eager peers 1 and 3 and lazy peer 2. -/
def c4wState : TopicState :=
  { eager_peers := [1, 3], lazy_peers := [2], message_cache := [],
    pending_ihave := [], outstanding_iwants := [] }

/-- Membership state with one active and two passive peers. -/
def c5wLow : MembershipState :=
  { active := [1], passive := [2, 3], swim := [],
    active_degree := DEFAULT_ACTIVE_DEGREE,
    passive_degree := DEFAULT_PASSIVE_DEGREE }

/-- Membership state with eight active peers (in the 8–12 band). -/
def c5wMid : MembershipState :=
  { active := [1, 2, 3, 4, 5, 6, 7, 8], passive := [9], swim := [],
    active_degree := DEFAULT_ACTIVE_DEGREE,
    passive_degree := DEFAULT_PASSIVE_DEGREE }

/-- Membership state with thirteen active peers (above the maximum of
twelve). -/
def c5wHigh : MembershipState :=
  { active := [1, 2, 3, 4, 5, 6, 7, 8, 9, 10, 11, 12, 13], passive := [],
    swim := [], active_degree := DEFAULT_ACTIVE_DEGREE,
    passive_degree := DEFAULT_PASSIVE_DEGREE }

/-- Membership state with eight active peers and 129 passive peers (one
above the passive capacity). -/
def c5wFat : MembershipState :=
  { active := [200, 201, 202, 203, 204, 205, 206, 207],
    passive := List.range 129, swim := [],
    active_degree := DEFAULT_ACTIVE_DEGREE,
    passive_degree := DEFAULT_PASSIVE_DEGREE }

/-! Helper lemmas about the container models. -/

theorem alookup_map_replace {β : Type} (l : List (Nat × β)) (k k' : Nat) (v : β) :
    alookup (l.map (fun e => if e.1 = k then (k, v) else e)) k' =
      if k' = k then (if (alookup l k).isSome then some v else none)
      else alookup l k' := by
  induction l with
  | nil => by_cases h' : k' = k <;> simp [alookup, h']
  | cons e rest ih =>
    by_cases he : e.1 = k
    · simp only [List.map_cons, he, if_true]
      by_cases h' : k' = k
      · subst h'
        simp [alookup, he]
      · have hek : ¬ e.1 = k' := by rw [he]; exact fun h => h' h.symm
        have h'' : ¬ k = k' := fun h => h' h.symm
        simp only [alookup, h', h'', if_false, hek, ite_false]
        rw [ih]
        simp [h']
    · simp only [List.map_cons, he, if_false]
      by_cases hek : e.1 = k'
      · have h' : ¬ k' = k := fun h => he (hek.trans h)
        simp [alookup, hek, h']
      · simp only [alookup, hek, if_false]
        rw [ih]
        by_cases h' : k' = k <;> simp [h', alookup, he, hek]

theorem alookup_aInsert {β : Type} (l : List (Nat × β)) (k k' : Nat) (v : β) :
    alookup (aInsert l k v) k' = if k' = k then some v else alookup l k' := by
  unfold aInsert
  by_cases hk : (alookup l k).isSome
  · simp only [hk, if_true]
    rw [alookup_map_replace]
    by_cases h' : k' = k <;> simp [h', hk]
  · simp only [hk, if_false]
    by_cases h' : k' = k
    · subst h'
      simp [alookup]
    · have : ¬ k = k' := fun h => h' h.symm
      simp [alookup, this, h']

theorem alookup_foldl_aInsert {β : Type} (ps : List Nat) (v : β) :
    ∀ (l : List (Nat × β)) (k : Nat),
      alookup (ps.foldl (fun acc p => aInsert acc p v) l) k =
        if k ∈ ps then some v else alookup l k := by
  induction ps with
  | nil => intro l k; simp
  | cons p rest ih =>
    intro l k
    simp only [List.foldl_cons]
    rw [ih]
    by_cases hr : k ∈ rest
    · simp [hr]
    · simp only [hr, if_false]
      rw [alookup_aInsert]
      by_cases hp : k = p
      · simp [hp]
      · simp [hp, List.mem_cons, hr]

theorem alookup_some_mem {β : Type} (l : List (Nat × β)) (k : Nat) (v : β)
    (h : alookup l k = some v) : (k, v) ∈ l := by
  induction l with
  | nil => simp [alookup] at h
  | cons e rest ih =>
    by_cases he : e.1 = k
    · simp only [alookup, he, if_true, Option.some.injEq] at h
      have : (k, v) = e := by
        obtain ⟨a, b⟩ := e
        simp only at he h
        rw [he, h]
      rw [← this] at *
      exact List.mem_cons_self _ _
    · simp only [alookup, he, if_false] at h
      exact List.mem_cons_of_mem e (ih h)

theorem mem_alookup_of_nodup {β : Type} (l : List (Nat × β)) (k : Nat) (v : β)
    (hnd : (l.map Prod.fst).Nodup) (h : (k, v) ∈ l) : alookup l k = some v := by
  induction l with
  | nil => simp at h
  | cons e rest ih =>
    simp only [List.map_cons, List.nodup_cons] at hnd
    rcases List.mem_cons.mp h with h1 | h1
    · rw [← h1]
      simp [alookup]
    · have hk : k ∈ rest.map Prod.fst := List.mem_map.mpr ⟨(k, v), h1, rfl⟩
      have he : ¬ e.1 = k := fun hek => hnd.1 (hek ▸ hk)
      simp only [alookup, he, if_false]
      exact ih hnd.2 h1

theorem mem_hsInsert (s : List PeerId) (p q : PeerId) :
    q ∈ hsInsert s p ↔ q = p ∨ q ∈ s := by
  unfold hsInsert
  by_cases hp : p ∈ s
  · simp only [hp, if_true]
    constructor
    · exact Or.inr
    · rintro (rfl | h)
      · exact hp
      · exact h
  · simp [hp, List.mem_cons]

theorem hsInsert_self (s : List PeerId) (p : PeerId) : p ∈ hsInsert s p := by
  rw [mem_hsInsert]; exact Or.inl rfl

theorem hsInsert_mono (s : List PeerId) (p q : PeerId) (h : q ∈ s) :
    q ∈ hsInsert s p := by
  rw [mem_hsInsert]; exact Or.inr h

theorem hsInsert_length_of_not_mem (s : List PeerId) (p : PeerId) (h : p ∉ s) :
    (hsInsert s p).length = s.length + 1 := by
  simp [hsInsert, h]

theorem hsInsert_nodup (s : List PeerId) (p : PeerId) (h : s.Nodup) :
    (hsInsert s p).Nodup := by
  unfold hsInsert
  by_cases hp : p ∈ s
  · simpa [hp]
  · rw [if_neg hp]
    exact List.nodup_cons.mpr ⟨hp, h⟩

theorem mem_foldl_hsInsert (l : List PeerId) :
    ∀ (init : List PeerId) (q : PeerId),
      q ∈ l.foldl hsInsert init ↔ q ∈ init ∨ q ∈ l := by
  induction l with
  | nil => intro init q; simp
  | cons p rest ih =>
    intro init q
    simp only [List.foldl_cons]
    rw [ih, mem_hsInsert]
    constructor
    · rintro ((hq | h) | h)
      · exact Or.inr (hq ▸ List.mem_cons_self _ rest)
      · exact Or.inl h
      · exact Or.inr (List.mem_cons_of_mem p h)
    · rintro (h | h)
      · exact Or.inl (Or.inr h)
      · rcases List.mem_cons.mp h with rfl | h
        · exact Or.inl (Or.inl rfl)
        · exact Or.inr h

theorem alookup_filter_keyne {β : Type} (l : List (Nat × β)) (k k' : Nat)
    (h : k' ≠ k) :
    alookup (l.filter (fun e => e.1 ≠ k)) k' = alookup l k' := by
  induction l with
  | nil => rfl
  | cons e rest ih =>
    by_cases he : e.1 = k
    · have hek : ¬ e.1 = k' := by rw [he]; exact fun hx => h hx.symm
      simp only [List.filter_cons, he]
      simpa [alookup, hek] using ih
    · simp only [List.filter_cons, he]
      by_cases hek : e.1 = k'
      · simp [alookup, hek, he, h]
      · simp only [ne_eq, he, not_false_iff, decide_True, if_true, alookup,
          hek, if_false]
        exact ih

theorem lruPut_lookup_self (c : LruCache) (k : MessageId) (v : CachedMessage) :
    lruLookup (lruPut c k v) k = some v := by
  show lruLookup (((k, v) :: c.filter (fun e => e.1 ≠ k)).take MAX_CACHE_SIZE) k
    = some v
  rw [show MAX_CACHE_SIZE = 9999 + 1 from rfl, List.take_succ_cons]
  simp [lruLookup, alookup]

theorem lruGet_fst (c : LruCache) (k : MessageId) :
    (lruGet c k).1 = lruLookup c k := by
  unfold lruGet
  cases h : lruLookup c k <;> simp

theorem lruGet_snd_lookup (c : LruCache) (k k' : MessageId) :
    lruLookup (lruGet c k).2 k' = lruLookup c k' := by
  unfold lruGet
  cases h : lruLookup c k with
  | none => rfl
  | some v =>
    by_cases hk : k' = k
    · subst hk
      have h' : alookup c k' = some v := h
      simp [lruLookup, alookup, h']
    · show lruLookup ((k, v) :: c.filter (fun e => e.1 ≠ k)) k' = lruLookup c k'
      have : ¬ k = k' := fun hx => hk hx.symm
      simp only [lruLookup, alookup, this, if_false]
      exact alookup_filter_keyne c k k' hk

theorem graft_peer_cache (s : TopicState) (p : PeerId) (x : LruCache) :
    graft_peer { s with message_cache := x } p =
      { graft_peer s p with message_cache := x } := by
  unfold graft_peer
  by_cases h : p ∈ s.lazy_peers <;> simp [h]

theorem graft_peer_cache_eq (s : TopicState) (p : PeerId) :
    (graft_peer s p).message_cache = s.message_cache := by
  unfold graft_peer
  by_cases h : p ∈ s.lazy_peers <;> simp [h]

theorem graft_peer_outstanding (s : TopicState) (p : PeerId) :
    (graft_peer s p).outstanding_iwants = s.outstanding_iwants := by
  unfold graft_peer
  by_cases h : p ∈ s.lazy_peers <;> simp [h]

theorem graft_peer_lazy_nodup (s : TopicState) (p : PeerId)
    (h : s.lazy_peers.Nodup) : (graft_peer s p).lazy_peers.Nodup := by
  unfold graft_peer
  by_cases hp : p ∈ s.lazy_peers
  · simpa [hp] using h.erase p
  · simpa [hp] using h

theorem graft_peer_of_not_mem (s : TopicState) (p : PeerId)
    (hp : p ∉ s.lazy_peers) : graft_peer s p = s := by
  unfold graft_peer
  simp [hp]

theorem graft_peer_idem (s : TopicState) (p : PeerId)
    (h : s.lazy_peers.Nodup) :
    graft_peer (graft_peer s p) p = graft_peer s p := by
  by_cases hp : p ∈ s.lazy_peers
  · have h1 : graft_peer s p =
        { s with lazy_peers := s.lazy_peers.erase p,
                 eager_peers := hsInsert s.eager_peers p } := by
      unfold graft_peer
      simp [hp]
    have h2 : p ∉ (graft_peer s p).lazy_peers := by
      rw [h1]
      exact h.not_mem_erase
    exact graft_peer_of_not_mem _ _ h2
  · rw [graft_peer_of_not_mem s p hp, graft_peer_of_not_mem s p hp]

theorem ihave_loop_frame (sender : PeerId) (now : Nat) :
    ∀ (ids : List MessageId) (s : TopicState),
      (ihave_loop s sender now ids).1.message_cache = s.message_cache ∧
      (ihave_loop s sender now ids).1.eager_peers = s.eager_peers ∧
      (ihave_loop s sender now ids).1.lazy_peers = s.lazy_peers ∧
      (ihave_loop s sender now ids).1.pending_ihave = s.pending_ihave := by
  intro ids
  induction ids with
  | nil => intro s; exact ⟨rfl, rfl, rfl, rfl⟩
  | cons mid rest ih =>
    intro s
    by_cases h1 : has_message s mid
    · simpa [ihave_loop, h1] using ih s
    · by_cases h2 : (alookup s.outstanding_iwants mid).isSome
      · simpa [ihave_loop, h1, h2] using ih s
      · simpa [ihave_loop, h1, h2] using
          ih { s with outstanding_iwants :=
                 aInsert s.outstanding_iwants mid (sender, now) }

theorem ihave_loop_requested_mem (sender : PeerId) (now : Nat) :
    ∀ (ids : List MessageId) (s : TopicState) (id : MessageId),
      id ∈ (ihave_loop s sender now ids).2 ↔
        (id ∈ ids ∧ has_message s id = false ∧
          alookup s.outstanding_iwants id = none) := by
  intro ids
  induction ids with
  | nil => intro s id; simp [ihave_loop]
  | cons mid rest ih =>
    intro s id
    by_cases h1 : has_message s mid
    · rw [show ihave_loop s sender now (mid :: rest) = ihave_loop s sender now rest
          from by simp [ihave_loop, h1]]
      rw [ih s id]
      constructor
      · rintro ⟨hm, hc, ho⟩
        exact ⟨List.mem_cons_of_mem mid hm, hc, ho⟩
      · rintro ⟨hm, hc, ho⟩
        rcases List.mem_cons.mp hm with hq | hq
        · rw [hq] at hc
          rw [h1] at hc
          cases hc
        · exact ⟨hq, hc, ho⟩
    · by_cases h2 : (alookup s.outstanding_iwants mid).isSome
      · rw [show ihave_loop s sender now (mid :: rest) = ihave_loop s sender now rest
            from by simp [ihave_loop, h1, h2]]
        rw [ih s id]
        constructor
        · rintro ⟨hm, hc, ho⟩
          exact ⟨List.mem_cons_of_mem mid hm, hc, ho⟩
        · rintro ⟨hm, hc, ho⟩
          rcases List.mem_cons.mp hm with hq | hq
          · rw [hq] at ho
            rw [ho] at h2
            simp at h2
          · exact ⟨hq, hc, ho⟩
      · have hc1 : has_message s mid = false := Bool.eq_false_iff.mpr h1
        have ho1 : alookup s.outstanding_iwants mid = none :=
          Option.not_isSome_iff_eq_none.mp h2
        set s1 : TopicState :=
          { s with outstanding_iwants :=
              aInsert s.outstanding_iwants mid (sender, now) } with hs1
        rw [show ihave_loop s sender now (mid :: rest) =
              ((ihave_loop s1 sender now rest).1,
                mid :: (ihave_loop s1 sender now rest).2)
            from by simp [ihave_loop, h1, h2, hs1]]
        have hcache : ∀ q, has_message s1 q = has_message s q := fun q => rfl
        have hout : ∀ q, alookup s1.outstanding_iwants q =
            if q = mid then some (sender, now) else alookup s.outstanding_iwants q :=
          fun q => alookup_aInsert s.outstanding_iwants mid q (sender, now)
        simp only [List.mem_cons]
        constructor
        · rintro (hq | hq)
          · exact ⟨Or.inl hq, hq ▸ hc1, hq ▸ ho1⟩
          · obtain ⟨hm, hc, ho⟩ := (ih s1 id).mp hq
            rw [hcache id] at hc
            rw [hout id] at ho
            by_cases hqm : id = mid
            · rw [hqm] at ho
              simp at ho
            · simp only [hqm, if_false] at ho
              exact ⟨Or.inr hm, hc, ho⟩
        · rintro ⟨hm, hc, ho⟩
          by_cases hqm : id = mid
          · exact Or.inl hqm
          · rcases hm with hq | hq
            · exact absurd hq hqm
            · refine Or.inr ((ih s1 id).mpr ⟨hq, ?_, ?_⟩)
              · rw [hcache id]; exact hc
              · rw [hout id]
                simp only [hqm, if_false]
                exact ho

theorem ihave_loop_lookup (sender : PeerId) (now : Nat) :
    ∀ (ids : List MessageId) (s : TopicState) (id : MessageId),
      alookup (ihave_loop s sender now ids).1.outstanding_iwants id =
        if id ∈ (ihave_loop s sender now ids).2 then some (sender, now)
        else alookup s.outstanding_iwants id := by
  intro ids
  induction ids with
  | nil => intro s id; simp [ihave_loop]
  | cons mid rest ih =>
    intro s id
    by_cases h1 : has_message s mid
    · rw [show ihave_loop s sender now (mid :: rest) = ihave_loop s sender now rest
          from by simp [ihave_loop, h1]]
      exact ih s id
    · by_cases h2 : (alookup s.outstanding_iwants mid).isSome
      · rw [show ihave_loop s sender now (mid :: rest) = ihave_loop s sender now rest
            from by simp [ihave_loop, h1, h2]]
        exact ih s id
      · set s1 : TopicState :=
          { s with outstanding_iwants :=
              aInsert s.outstanding_iwants mid (sender, now) } with hs1
        rw [show ihave_loop s sender now (mid :: rest) =
              ((ihave_loop s1 sender now rest).1,
                mid :: (ihave_loop s1 sender now rest).2)
            from by simp [ihave_loop, h1, h2, hs1]]
        have hout : alookup s1.outstanding_iwants id =
            if id = mid then some (sender, now) else alookup s.outstanding_iwants id :=
          alookup_aInsert s.outstanding_iwants mid id (sender, now)
        rw [ih s1 id, hout]
        by_cases hr : id ∈ (ihave_loop s1 sender now rest).2
        · simp [hr, List.mem_cons]
        · by_cases hqm : id = mid
          · simp [hr, hqm, List.mem_cons]
          · simp [hr, hqm, List.mem_cons]

theorem alookup_none_filter {β : Type} (f : Nat × β → Bool) (l : List (Nat × β))
    (k : Nat) (h : alookup l k = none) : alookup (l.filter f) k = none := by
  induction l with
  | nil => rfl
  | cons e rest ih =>
    by_cases he : e.1 = k
    · simp [alookup, he] at h
    · simp only [alookup, he, if_false] at h
      simp only [List.filter_cons]
      by_cases hf : f e
      · simpa [hf, alookup, he] using ih h
      · simpa [hf] using ih h

theorem alookup_filter_false {β : Type} (f : Nat × β → Bool)
    (l : List (Nat × β)) (k : Nat) (v : β)
    (hnd : (l.map Prod.fst).Nodup) (h : alookup l k = some v)
    (hf : f (k, v) = false) : alookup (l.filter f) k = none := by
  induction l with
  | nil => simp [alookup] at h
  | cons e rest ih =>
    simp only [List.map_cons, List.nodup_cons] at hnd
    by_cases he : e.1 = k
    · simp only [alookup, he, if_true, Option.some.injEq] at h
      have hek : e = (k, v) := by
        obtain ⟨a, b⟩ := e
        simp only at he h
        rw [he, h]
      have hrest : alookup rest k = none := by
        rcases hr : alookup rest k with _ | w
        · rfl
        · have : (k, w) ∈ rest := alookup_some_mem rest k w hr
          have : k ∈ rest.map Prod.fst := List.mem_map.mpr ⟨(k, w), this, rfl⟩
          exact absurd (he ▸ this) hnd.1
      simp only [List.filter_cons, hek, hf]
      exact alookup_none_filter f rest k hrest
    · simp only [alookup, he, if_false] at h
      simp only [List.filter_cons]
      by_cases hfe : f e
      · simpa [hfe, alookup, he] using ih hnd.2 h
      · simpa [hfe] using ih hnd.2 h

theorem iwant_loop_to_send (sender : PeerId) :
    ∀ (ids : List MessageId) (s : TopicState),
      (iwant_loop s sender ids).2 =
        ids.filterMap (fun id =>
          (lruLookup s.message_cache id).map (fun c => (id, c))) := by
  intro ids
  induction ids with
  | nil => intro s; simp [iwant_loop]
  | cons mid rest ih =>
    intro s
    rcases h : lruLookup s.message_cache mid with _ | v
    · rw [show iwant_loop s sender (mid :: rest) = iwant_loop s sender rest
          from by simp [iwant_loop, lruGet, h]]
      rw [ih s]
      simp [List.filterMap_cons, h]
    · set s1 : TopicState :=
        graft_peer { s with message_cache :=
          (mid, v) :: s.message_cache.filter (fun e => e.1 ≠ mid) } sender with hs1
      rw [show iwant_loop s sender (mid :: rest) =
            ((iwant_loop s1 sender rest).1,
              (mid, v) :: (iwant_loop s1 sender rest).2)
          from by simp [iwant_loop, lruGet, h, hs1]]
      rw [ih s1]
      have hcache : ∀ q, lruLookup s1.message_cache q = lruLookup s.message_cache q := by
        intro q
        rw [hs1, graft_peer_cache_eq]
        have : ((mid, v) :: s.message_cache.filter (fun e => e.1 ≠ mid)) =
            (lruGet s.message_cache mid).2 := by
          simp [lruGet, h]
        rw [this, lruGet_snd_lookup]
      have hfm : (fun id => (lruLookup s1.message_cache id).map (fun c => (id, c))) =
          (fun id => (lruLookup s.message_cache id).map (fun c => (id, c))) := by
        funext q
        rw [hcache q]
      rw [hfm]
      simp [List.filterMap_cons, h]

theorem iwant_loop_cache_lookup (sender : PeerId) :
    ∀ (ids : List MessageId) (s : TopicState) (q : MessageId),
      lruLookup (iwant_loop s sender ids).1.message_cache q =
        lruLookup s.message_cache q := by
  intro ids
  induction ids with
  | nil => intro s q; simp [iwant_loop]
  | cons mid rest ih =>
    intro s q
    rcases h : lruLookup s.message_cache mid with _ | v
    · rw [show iwant_loop s sender (mid :: rest) = iwant_loop s sender rest
          from by simp [iwant_loop, lruGet, h]]
      exact ih s q
    · set s1 : TopicState :=
        graft_peer { s with message_cache :=
          (mid, v) :: s.message_cache.filter (fun e => e.1 ≠ mid) } sender with hs1
      rw [show iwant_loop s sender (mid :: rest) =
            ((iwant_loop s1 sender rest).1,
              (mid, v) :: (iwant_loop s1 sender rest).2)
          from by simp [iwant_loop, lruGet, h, hs1]]
      rw [ih s1 q, hs1, graft_peer_cache_eq]
      have : ((mid, v) :: s.message_cache.filter (fun e => e.1 ≠ mid)) =
          (lruGet s.message_cache mid).2 := by
        simp [lruGet, h]
      rw [this, lruGet_snd_lookup]

theorem iwant_loop_views (sender : PeerId) :
    ∀ (ids : List MessageId) (s : TopicState), s.lazy_peers.Nodup →
      (iwant_loop s sender ids).1.eager_peers =
        (if ids.any (fun id => has_message s id) then graft_peer s sender
         else s).eager_peers ∧
      (iwant_loop s sender ids).1.lazy_peers =
        (if ids.any (fun id => has_message s id) then graft_peer s sender
         else s).lazy_peers := by
  intro ids
  induction ids with
  | nil => intro s _; simp [iwant_loop]
  | cons mid rest ih =>
    intro s hnd
    rcases h : lruLookup s.message_cache mid with _ | v
    · rw [show iwant_loop s sender (mid :: rest) = iwant_loop s sender rest
          from by simp [iwant_loop, lruGet, h]]
      have hmid : has_message s mid = false := by
        simp [has_message, h]
      rcases ih s hnd with ⟨h1, h2⟩
      rw [h1, h2]
      simp [List.any_cons, hmid]
    · set sc : TopicState :=
        { s with message_cache :=
            (mid, v) :: s.message_cache.filter (fun e => e.1 ≠ mid) } with hsc
      set s1 : TopicState := graft_peer sc sender with hs1
      rw [show iwant_loop s sender (mid :: rest) =
            ((iwant_loop s1 sender rest).1,
              (mid, v) :: (iwant_loop s1 sender rest).2)
          from by simp [iwant_loop, lruGet, h, hsc, hs1]]
      have hnd1 : s1.lazy_peers.Nodup := by
        rw [hs1]
        exact graft_peer_lazy_nodup sc sender hnd
      have hidem : graft_peer s1 sender = s1 := by
        rw [hs1]
        exact graft_peer_idem sc sender hnd
      have hmid : has_message s mid = true := by
        simp [has_message, h]
      have hviews : s1.eager_peers = (graft_peer s sender).eager_peers ∧
          s1.lazy_peers = (graft_peer s sender).lazy_peers := by
        rw [hs1, hsc, graft_peer_cache]
        exact ⟨rfl, rfl⟩
      have hcollapse : (if (rest.any (fun id => has_message s1 id)) = true
          then graft_peer s1 sender else s1) = s1 := by
        rw [hidem, ite_self]
      have hfull : (if ((mid :: rest).any (fun id => has_message s id)) = true
          then graft_peer s sender else s) = graft_peer s sender := by
        simp [List.any_cons, hmid]
      rcases ih s1 hnd1 with ⟨h1, h2⟩
      constructor
      · rw [h1, hcollapse, hfull]
        exact hviews.1
      · rw [h2, hcollapse, hfull]
        exact hviews.2

theorem promote_fold_active_length :
    ∀ (l : List PeerId) (st : MembershipState), l.Nodup →
      (∀ p ∈ l, p ∉ st.active) →
      ((l.foldl (fun st p => { st with passive := st.passive.erase p,
                                       active := hsInsert st.active p }) st).active.length
        = st.active.length + l.length) := by
  intro l
  induction l with
  | nil => intro st _ _; rfl
  | cons p rest ih =>
    intro st hnd hmem
    simp only [List.foldl_cons]
    set st1 : MembershipState :=
      { st with passive := st.passive.erase p, active := hsInsert st.active p }
      with hst1
    have hp : p ∉ st.active := hmem p (List.mem_cons_self p rest)
    have hlen : st1.active.length = st.active.length + 1 := by
      rw [hst1]
      exact hsInsert_length_of_not_mem st.active p hp
    have hnd1 : rest.Nodup := (List.nodup_cons.mp hnd).2
    have hpr : p ∉ rest := (List.nodup_cons.mp hnd).1
    have hmem1 : ∀ q ∈ rest, q ∉ st1.active := by
      intro q hq
      rw [hst1]
      show q ∉ hsInsert st.active p
      rw [mem_hsInsert]
      rintro (hqp | hqa)
      · exact hpr (hqp ▸ hq)
      · exact hmem q (List.mem_cons_of_mem p hq) hqa
    rw [ih st1 hnd1 hmem1, hlen]
    simp [List.length_cons]
    omega

theorem demote_fold_active_length :
    ∀ (l : List PeerId) (st : MembershipState), l.Nodup →
      (∀ p ∈ l, p ∈ st.active) →
      ((l.foldl (fun st p =>
          let st1 := { st with active := st.active.erase p }
          if st1.passive.length < MAX_PASSIVE_DEGREE then
            { st1 with passive := hsInsert st1.passive p }
          else st1) st).active.length
        = st.active.length - l.length) := by
  intro l
  induction l with
  | nil => intro st _ _; rfl
  | cons p rest ih =>
    intro st hnd hmem
    simp only [List.foldl_cons]
    have hp : p ∈ st.active := hmem p (List.mem_cons_self p rest)
    set st2 : MembershipState :=
      (let st1 := { st with active := st.active.erase p }
       if st1.passive.length < MAX_PASSIVE_DEGREE then
         { st1 with passive := hsInsert st1.passive p }
       else st1) with hst2
    have hact : st2.active = st.active.erase p := by
      rw [hst2]
      by_cases hcap : ({ st with active := st.active.erase p } :
          MembershipState).passive.length < MAX_PASSIVE_DEGREE
      · simp [hcap]
      · simp [hcap]
    have hnd1 : rest.Nodup := (List.nodup_cons.mp hnd).2
    have hpr : p ∉ rest := (List.nodup_cons.mp hnd).1
    have hmem1 : ∀ q ∈ rest, q ∈ st2.active := by
      intro q hq
      rw [hact]
      have hqp : q ≠ p := fun h => hpr (h ▸ hq)
      exact (List.mem_erase_of_ne hqp).mpr (hmem q (List.mem_cons_of_mem p hq))
    have hlen : st2.active.length = st.active.length - 1 := by
      rw [hact]
      exact List.length_erase_of_mem hp
    rw [ih st2 hnd1 hmem1, hlen]
    simp only [List.length_cons]
    omega

theorem trim_fold_passive_length :
    ∀ (l : List PeerId) (st : MembershipState), l.Nodup →
      (∀ p ∈ l, p ∈ st.passive) →
      ((l.foldl (fun st p => { st with passive := st.passive.erase p }) st).passive.length
        = st.passive.length - l.length) := by
  intro l
  induction l with
  | nil => intro st _ _; rfl
  | cons p rest ih =>
    intro st hnd hmem
    simp only [List.foldl_cons]
    set st1 : MembershipState := { st with passive := st.passive.erase p } with hst1
    have hp : p ∈ st.passive := hmem p (List.mem_cons_self p rest)
    have hnd1 : rest.Nodup := (List.nodup_cons.mp hnd).2
    have hpr : p ∉ rest := (List.nodup_cons.mp hnd).1
    have hmem1 : ∀ q ∈ rest, q ∈ st1.passive := by
      intro q hq
      rw [hst1]
      have hqp : q ≠ p := fun h => hpr (h ▸ hq)
      exact (List.mem_erase_of_ne hqp).mpr (hmem q (List.mem_cons_of_mem p hq))
    have hlen : st1.passive.length = st.passive.length - 1 := by
      rw [hst1]
      exact List.length_erase_of_mem hp
    rw [ih st1 hnd1 hmem1, hlen]
    simp only [List.length_cons]
    omega

theorem trim_fold_active :
    ∀ (l : List PeerId) (st : MembershipState),
      (l.foldl (fun st p => { st with passive := st.passive.erase p }) st).active
        = st.active := by
  intro l
  induction l with
  | nil => intro st; rfl
  | cons p rest ih =>
    intro st
    simp only [List.foldl_cons]
    exact ih _

theorem alookup_foldl_mark_dead (now : Nat) (ps : List PeerId) :
    ∀ (st : SwimStates) (p : PeerId),
      alookup (ps.foldl (fun acc peer =>
          aInsert acc peer ⟨PeerState.dead, now⟩) st) p =
        if p ∈ ps then some ⟨PeerState.dead, now⟩ else alookup st p := by
  intro st p
  exact alookup_foldl_aInsert ps ⟨PeerState.dead, now⟩ st p

/-! Claim theorems. -/

/-- C9: for every EAGER message whose payload is `None` and whose msg_id is
not already cached, `handle_eager` returns the "EAGER missing payload"
error before any state change: nothing is cached, delivered or forwarded
(an `Except.error` result carries no new state, so the topic state is
unchanged). -/
theorem c9_eager_missing_payload (s : TopicState) (sender : PeerId)
    (message : GossipMessage) (now : Nat)
    (hpl : message.payload = none)
    (hnc : has_message s message.header.msg_id = false) :
    handle_eager s sender message now = Except.error "EAGER missing payload" := by
  simp [handle_eager, verify_signature, hnc, hpl]

/-- Witness for C9: the concrete payload-less EAGER `c9Msg` on the empty
topic state hits the error branch. -/
theorem c9_witness :
    c9Msg.payload = none ∧
    has_message TopicState.new c9Msg.header.msg_id = false ∧
    handle_eager TopicState.new 4 c9Msg 0 = Except.error "EAGER missing payload" :=
  ⟨by decide, by decide,
   c9_eager_missing_payload TopicState.new 4 c9Msg 0 (by decide) (by decide)⟩

/-- C10: `remove_active` on a peer that is not in the active view returns
`Ok` and changes nothing at all: the active view is untouched and the
SWIM detector state of the peer is untouched (the peer is marked Dead only
when it was actually removed). -/
theorem c10_remove_active_frame (s : MembershipState) (p : PeerId) (now : Nat)
    (h : p ∉ s.active) : remove_active s p now = Except.ok s := by
  unfold remove_active
  simp [h, List.erase_of_not_mem h]

/-- Witness for C10: removing the absent peer 9 from `c10State` returns
`Ok` with the state unchanged. -/
theorem c10_witness :
    9 ∉ c10State.active ∧ remove_active c10State 9 0 = Except.ok c10State :=
  ⟨by decide, c10_remove_active_frame c10State 9 0 (by decide)⟩

/-- Counterexample for C1: `exDupState` already caches message 99 and has
the sender (peer 2) eager, so the second EAGER is a duplicate; the claim
says a PRUNE(msgId) message is sent back to the sender, but the handler
sends nothing at all (`sent = []`) — it only moves the sender to the lazy
set and delivers nothing. -/
theorem c1_counterexample :
    (handle_eager exDupState 2 exEagerMsg 5).map
      (fun o => (o.sent, o.delivered, o.state.lazy_peers)) =
      Except.ok ([], [], [2]) := by rfl

/-- C1 (amended): on a duplicate EAGER the handler moves the sender from
eager to lazy (if currently eager), sends nothing over the wire (in
particular no PRUNE message), delivers nothing and forwards nothing; and
receiving the same EAGER twice yields exactly one delivery, with the
duplicate producing no sends at all. -/
theorem c1_duplicate_eager (s : TopicState) (sender : PeerId)
    (msg : GossipMessage) (pl : Bytes) (now1 now2 : Nat) (out : PubSubEffects) :
    (has_message s msg.header.msg_id = true →
      handle_eager s sender msg now1 =
        Except.ok { state := prune_peer s sender, sent := [], delivered := [] }) ∧
    (msg.payload = some pl →
      has_message s msg.header.msg_id = false →
      handle_eager s sender msg now1 = Except.ok out →
      out.delivered = [(sender, pl)] ∧
      handle_eager out.state sender msg now2 =
        Except.ok { state := prune_peer out.state sender, sent := [],
                    delivered := [] }) := by
  constructor
  · intro h
    simp [handle_eager, verify_signature, h]
  · intro hpl hnc hok
    have hval : handle_eager s sender msg now1 = Except.ok
        { state :=
            { cache_message s msg.header.msg_id pl msg.header now1 with
                pending_ihave :=
                  (cache_message s msg.header.msg_id pl msg.header now1).pending_ihave
                    ++ [msg.header.msg_id] },
          sent := ((cache_message s msg.header.msg_id pl msg.header now1).eager_peers.filter
              (fun p => p ≠ sender)).map (fun p => (p, msg)),
          delivered := [(sender, pl)] } := by
      simp [handle_eager, verify_signature, hnc, hpl]
    rw [hok] at hval
    injection hval with heq
    subst heq
    refine ⟨rfl, ?_⟩
    have hdup : has_message
        ({ state :=
             { cache_message s msg.header.msg_id pl msg.header now1 with
                 pending_ihave :=
                   (cache_message s msg.header.msg_id pl msg.header now1).pending_ihave
                     ++ [msg.header.msg_id] },
           sent := ((cache_message s msg.header.msg_id pl msg.header now1).eager_peers.filter
               (fun p => p ≠ sender)).map (fun p => (p, msg)),
           delivered := [(sender, pl)] } : PubSubEffects).state msg.header.msg_id
        = true := by
      show (lruLookup
        (lruPut s.message_cache msg.header.msg_id ⟨pl, now1, msg.header⟩)
        msg.header.msg_id).isSome = true
      rw [lruPut_lookup_self]
      rfl
    simp [handle_eager, verify_signature, hdup]

/-- Witness for C1: both parts applied at concrete inputs — the duplicate
branch on `exDupState`, and the fresh-then-duplicate pair starting from
`c1FirstState`, which delivers exactly once. -/
theorem c1_witness :
    (handle_eager exDupState 2 exEagerMsg 5 =
      Except.ok { state := prune_peer exDupState 2, sent := [], delivered := [] }) ∧
    c1Out.delivered = [(2, [104, 105])] ∧
    (handle_eager c1Out.state 2 exEagerMsg 1 =
      Except.ok { state := prune_peer c1Out.state 2, sent := [], delivered := [] }) :=
  ⟨(c1_duplicate_eager exDupState 2 exEagerMsg [104, 105] 5 0 c1Out).1 (by decide),
   ((c1_duplicate_eager c1FirstState 2 exEagerMsg [104, 105] 0 1 c1Out).2
      (by decide) (by decide) (by rfl)).1,
   ((c1_duplicate_eager c1FirstState 2 exEagerMsg [104, 105] 0 1 c1Out).2
      (by decide) (by decide) (by rfl)).2⟩

/-- Counterexample for C2: `c2Msg` has hop = ttl = 10 and is not a
duplicate, yet `handle_eager` forwards it — unchanged, hop still 10 — to
the eager peer 5; the claim says hop is incremented before forwarding and
that a message with hop ≥ ttl is not forwarded. -/
theorem c2_counterexample :
    (handle_eager c2State 2 c2Msg 0).map (fun o => o.sent) =
      Except.ok [(5, c2Msg)] ∧
    c2Msg.header.hop = 10 ∧ c2Msg.header.ttl = 10 :=
  ⟨by rfl, by decide, by decide⟩

/-- C2 (amended): every published message carries hop = 0 and ttl = 10 in
its header (and is cached with that header), and `handle_eager` forwards a
non-duplicate EAGER to every eager peer except the sender completely
unchanged: hop is not incremented and ttl is never consulted, so a message
with hop ≥ ttl is still delivered and forwarded. -/
theorem c2_publish_and_forward (s : TopicState) (self_peer : PeerId)
    (topic : TopicId) (mid : MessageId) (pl : Bytes) (now : Nat)
    (sender : PeerId) (msg : GossipMessage) (out pout : PubSubEffects) :
    (publish_local s self_peer topic mid pl now = Except.ok pout →
      (∀ e ∈ pout.sent,
        e.2 = { header := { version := 1, topic := topic, msg_id := mid,
                            kind := MessageKind.eager, hop := 0, ttl := 10 },
                payload := some pl, signature := [] }) ∧
      lruLookup pout.state.message_cache mid =
        some ⟨pl, now, { version := 1, topic := topic, msg_id := mid,
                         kind := MessageKind.eager, hop := 0, ttl := 10 }⟩ ∧
      pout.delivered = [(self_peer, pl)]) ∧
    (msg.payload = some pl →
      has_message s msg.header.msg_id = false →
      handle_eager s sender msg now = Except.ok out →
      out.sent = (s.eager_peers.filter (fun p => p ≠ sender)).map
          (fun p => (p, msg)) ∧
      out.delivered = [(sender, pl)]) := by
  constructor
  · intro hok
    have hval : publish_local s self_peer topic mid pl now = Except.ok
        { state :=
            { cache_message s mid pl
                { version := 1, topic := topic, msg_id := mid,
                  kind := MessageKind.eager, hop := 0, ttl := 10 } now with
                pending_ihave :=
                  (cache_message s mid pl
                    { version := 1, topic := topic, msg_id := mid,
                      kind := MessageKind.eager, hop := 0, ttl := 10 } now).pending_ihave
                    ++ [mid] },
          sent := (cache_message s mid pl
              { version := 1, topic := topic, msg_id := mid,
                kind := MessageKind.eager, hop := 0, ttl := 10 } now).eager_peers.map
              (fun p => (p,
                ({ header := { version := 1, topic := topic, msg_id := mid,
                               kind := MessageKind.eager, hop := 0, ttl := 10 },
                   payload := some pl, signature := [] } : GossipMessage))),
          delivered := [(self_peer, pl)] } := by
      simp [publish_local, sign_message]
    rw [hok] at hval
    injection hval with heq
    subst heq
    refine ⟨?_, ?_, rfl⟩
    · intro e he
      rcases List.mem_map.mp he with ⟨p, _, hpe⟩
      rw [← hpe]
    · show lruLookup (lruPut s.message_cache mid
        ⟨pl, now, { version := 1, topic := topic, msg_id := mid,
                    kind := MessageKind.eager, hop := 0, ttl := 10 }⟩) mid = _
      rw [lruPut_lookup_self]
  · intro hpl hnc hok
    have hval : handle_eager s sender msg now = Except.ok
        { state :=
            { cache_message s msg.header.msg_id pl msg.header now with
                pending_ihave :=
                  (cache_message s msg.header.msg_id pl msg.header now).pending_ihave
                    ++ [msg.header.msg_id] },
          sent := ((cache_message s msg.header.msg_id pl msg.header now).eager_peers.filter
              (fun p => p ≠ sender)).map (fun p => (p, msg)),
          delivered := [(sender, pl)] } := by
      simp [handle_eager, verify_signature, hnc, hpl]
    rw [hok] at hval
    injection hval with heq
    subst heq
    exact ⟨rfl, rfl⟩

/-- Witness for C2: publishing payload `[9]` as id 42 on the empty state,
and handling the fresh `exEagerMsg` on `c2State`, both at concrete
inputs. -/
theorem c2_witness :
    ((∀ e ∈ c2PubOut.sent,
        e.2 = { header := { version := 1, topic := 7, msg_id := 42,
                            kind := MessageKind.eager, hop := 0, ttl := 10 },
                payload := some [9], signature := [] }) ∧
      lruLookup c2PubOut.state.message_cache 42 =
        some ⟨[9], 3, { version := 1, topic := 7, msg_id := 42,
                        kind := MessageKind.eager, hop := 0, ttl := 10 }⟩ ∧
      c2PubOut.delivered = [(1, [9])]) ∧
    (c2EagOut.sent = (c2State.eager_peers.filter (fun p => p ≠ 2)).map
        (fun p => (p, exEagerMsg)) ∧
      c2EagOut.delivered = [(2, [104, 105])]) :=
  ⟨(c2_publish_and_forward TopicState.new 1 7 42 [9] 3 2 exEagerMsg c2EagOut
      c2PubOut).1 (by rfl),
   (c2_publish_and_forward c2State 1 7 42 [104, 105] 4 2 exEagerMsg c2EagOut
      c2PubOut).2 (by decide) (by decide) (by rfl)⟩

/-- Counterexample for C3: starting from empty views at the default
degrees and using only `add_active`, peer 8 ends up in the active and the
passive view at once (it is demoted to passive when peer 9 arrives and
then re-added), so the views are not disjoint and `add_active(p)` with `p`
passive does not remove `p` from the passive view. -/
theorem c3_counterexample :
    c3_trace.map (fun s => (s.active, s.passive)) =
      Except.ok ([8, 7, 6, 5, 4, 3, 2, 1], [9, 8]) := by rfl

/-- C3 (amended): the membership operations do not keep the views
disjoint: `add_active(p)` inserts `p` into the active view without ever
removing it from the passive view, so calling it while `p` is in the
passive view leaves `p` in both views simultaneously. -/
theorem c3_add_active_not_disjoint (s : MembershipState) (p : PeerId)
    (now : Nat) (s' : MembershipState)
    (hok : add_active s p now = Except.ok s')
    (hp : p ∈ s.passive) : p ∈ s'.active ∧ p ∈ s'.passive := by
  unfold add_active at hok
  injection hok with heq
  subst heq
  constructor
  · exact hsInsert_self _ p
  · show p ∈ (if s.active.length ≥ s.active_degree then
        match s.active.head? with
        | some to_demote =>
          { s with active := s.active.erase to_demote,
                   passive :=
                     if s.passive.length < s.passive_degree then
                       hsInsert s.passive to_demote
                     else s.passive }
        | none => s
      else s).passive
    by_cases hfull : s.active.length ≥ s.active_degree
    · rw [if_pos hfull]
      cases hh : s.active.head? with
      | none => exact hp
      | some d =>
        show p ∈ (if s.passive.length < s.passive_degree then
            hsInsert s.passive d else s.passive)
        by_cases hroom : s.passive.length < s.passive_degree
        · rw [if_pos hroom]
          exact hsInsert_mono s.passive d p hp
        · rw [if_neg hroom]
          exact hp
    · rw [if_neg hfull]
      exact hp

/-- Witness for C3: adding peer 5 to `c3wState`, where 5 is passive,
leaves it in both views. -/
theorem c3_witness :
    5 ∈ c3wState.passive ∧ 5 ∈ c3wOut.active ∧ 5 ∈ c3wOut.passive :=
  ⟨by decide,
   (c3_add_active_not_disjoint c3wState 5 0 c3wOut (by rfl) (by decide)).1,
   (c3_add_active_not_disjoint c3wState 5 0 c3wOut (by rfl) (by decide)).2⟩

/-- Counterexample for C4: starting from the empty topic state, peer 1 is
made eager by `init_topic_peers`, pruned to lazy by a duplicate EAGER, and
then `init_topic_peers` is called again with peer 1: it ends up in the
eager and the lazy set at once, so the sets are not disjoint — the claim
that `initialize_topic_peers` with a peer already lazy leaves the sets
disjoint fails. -/
theorem c4_counterexample :
    c4_trace.map (fun s => (s.eager_peers, s.lazy_peers)) =
      Except.ok ([1], [1]) := by rfl

/-- C4 (amended): `prune_peer` and `graft_peer` preserve the disjointness
of the eager and lazy sets, but `initialize_topic_peers` inserts the given
peers into the eager set without removing them from the lazy set: called
with a peer already in the lazy set it leaves that peer in both sets. -/
theorem c4_eager_lazy_disjointness (s : TopicState) (p q : PeerId)
    (peers : List PeerId) :
    (s.eager_peers.Nodup →
      (∀ r ∈ s.eager_peers, r ∉ s.lazy_peers) →
      q ∈ (prune_peer s p).eager_peers → q ∉ (prune_peer s p).lazy_peers) ∧
    (s.lazy_peers.Nodup →
      (∀ r ∈ s.eager_peers, r ∉ s.lazy_peers) →
      q ∈ (graft_peer s p).eager_peers → q ∉ (graft_peer s p).lazy_peers) ∧
    (p ∈ s.lazy_peers → p ∈ peers →
      p ∈ (init_topic_peers s peers).eager_peers ∧
      p ∈ (init_topic_peers s peers).lazy_peers) := by
  refine ⟨?_, ?_, ?_⟩
  · intro hnd hdisj hq
    by_cases hp : p ∈ s.eager_peers
    · rw [show prune_peer s p =
          { s with eager_peers := s.eager_peers.erase p,
                   lazy_peers := hsInsert s.lazy_peers p }
          from by unfold prune_peer; simp [hp]] at hq ⊢
      have hq' : q ≠ p ∧ q ∈ s.eager_peers := (hnd.mem_erase_iff).mp hq
      show q ∉ hsInsert s.lazy_peers p
      rw [mem_hsInsert]
      rintro (hqp | hql)
      · exact hq'.1 hqp
      · exact hdisj q hq'.2 hql
    · rw [show prune_peer s p = s from by unfold prune_peer; simp [hp]] at hq ⊢
      exact hdisj q hq
  · intro hnd hdisj hq
    by_cases hp : p ∈ s.lazy_peers
    · rw [show graft_peer s p =
          { s with lazy_peers := s.lazy_peers.erase p,
                   eager_peers := hsInsert s.eager_peers p }
          from by unfold graft_peer; simp [hp]] at hq ⊢
      rw [mem_hsInsert] at hq
      show q ∉ s.lazy_peers.erase p
      rcases hq with hqp | hqe
      · rw [hqp]
        exact hnd.not_mem_erase
      · intro hmem
        exact hdisj q hqe (List.mem_of_mem_erase hmem)
    · rw [show graft_peer s p = s from by unfold graft_peer; simp [hp]] at hq ⊢
      exact hdisj q hq
  · intro hl hm
    refine ⟨?_, hl⟩
    show p ∈ peers.foldl hsInsert s.eager_peers
    rw [mem_foldl_hsInsert]
    exact Or.inr hm

/-- Witness for C4: all three parts at concrete inputs on `c4wState`
(eager 1 and 3, lazy 2): pruning 1 keeps 3 out of the lazy set, grafting 2
keeps 1 out of the lazy set, and re-initialising with the lazy peer 2 puts
2 into both sets. -/
theorem c4_witness :
    (3 ∉ (prune_peer c4wState 1).lazy_peers) ∧
    (1 ∉ (graft_peer c4wState 2).lazy_peers) ∧
    (2 ∈ (init_topic_peers c4wState [2]).eager_peers ∧
      2 ∈ (init_topic_peers c4wState [2]).lazy_peers) :=
  ⟨(c4_eager_lazy_disjointness c4wState 1 3 [2]).1 (by decide) (by decide)
      (by decide),
   (c4_eager_lazy_disjointness c4wState 2 1 [2]).2.1 (by decide) (by decide)
      (by decide),
   (c4_eager_lazy_disjointness c4wState 2 1 [2]).2.2 (by decide) (by decide)⟩

/-- Counterexample for C5: `c5State` has six active peers and a non-empty
passive view; the claim says no promotion occurs at six, but one
degree-maintenance tick promotes two passive peers, bringing the active
view to eight (`DEFAULT_ACTIVE_DEGREE = 8`, not 6). -/
theorem c5_counterexample :
    c5State.active.length = 6 ∧ c5State.passive ≠ [] ∧
    (degree_maintenance_tick c5State).active.length = 8 := by
  refine ⟨by decide, by decide, by rfl⟩

/-- C5 (amended): one degree-maintenance tick promotes passive peers
whenever the active view is below `DEFAULT_ACTIVE_DEGREE = 8` (not 6) and
the passive view is non-empty, until the active view reaches 8 or the
passive view is exhausted; with 8 to 12 active peers it changes the active
view not at all; above 12 it demotes the excess, leaving exactly 12; and
with 8–12 active peers and more than 128 passive peers it evicts the
passive excess down to 128. -/
theorem c5_degree_maintenance (s : MembershipState) :
    (s.passive.Nodup → (∀ q ∈ s.passive, q ∉ s.active) →
      s.active.length < DEFAULT_ACTIVE_DEGREE → s.passive ≠ [] →
      (degree_maintenance_tick s).active.length =
        s.active.length +
          min (DEFAULT_ACTIVE_DEGREE - s.active.length) s.passive.length) ∧
    (DEFAULT_ACTIVE_DEGREE ≤ s.active.length →
      s.active.length ≤ MAX_ACTIVE_DEGREE →
      (degree_maintenance_tick s).active = s.active) ∧
    (s.active.Nodup → s.active.length > MAX_ACTIVE_DEGREE →
      (degree_maintenance_tick s).active.length = MAX_ACTIVE_DEGREE) ∧
    (s.passive.Nodup → DEFAULT_ACTIVE_DEGREE ≤ s.active.length →
      s.active.length ≤ MAX_ACTIVE_DEGREE →
      s.passive.length > MAX_PASSIVE_DEGREE →
      (degree_maintenance_tick s).passive.length = MAX_PASSIVE_DEGREE) := by
  refine ⟨?_, ?_, ?_, ?_⟩
  · intro hnd hdisj hlow hne
    have hc1 : s.active.length < DEFAULT_ACTIVE_DEGREE ∧ s.passive ≠ [] :=
      ⟨hlow, hne⟩
    have hc2 : ¬ s.active.length > MAX_ACTIVE_DEGREE := by
      unfold DEFAULT_ACTIVE_DEGREE at hlow
      unfold MAX_ACTIVE_DEGREE
      omega
    have htake_nd : (s.passive.take (DEFAULT_ACTIVE_DEGREE - s.active.length)).Nodup :=
      (List.take_sublist _ _).nodup hnd
    have htake_mem : ∀ q ∈ s.passive.take (DEFAULT_ACTIVE_DEGREE - s.active.length),
        q ∉ s.active := fun q hq => hdisj q (List.take_subset _ _ hq)
    have hfold := promote_fold_active_length
      (s.passive.take (DEFAULT_ACTIVE_DEGREE - s.active.length)) s htake_nd htake_mem
    unfold degree_maintenance_tick
    dsimp only
    rw [if_pos hc1, if_neg hc2]
    by_cases hc3 : s.passive.length > MAX_PASSIVE_DEGREE
    · rw [if_pos hc3, trim_fold_active, hfold, List.length_take]
    · rw [if_neg hc3, hfold, List.length_take]
  · intro h8 h12
    have hc1 : ¬ (s.active.length < DEFAULT_ACTIVE_DEGREE ∧ s.passive ≠ []) := by
      rintro ⟨hlt, _⟩
      omega
    have hc2 : ¬ s.active.length > MAX_ACTIVE_DEGREE := by omega
    unfold degree_maintenance_tick
    dsimp only
    rw [if_neg hc1, if_neg hc2]
    by_cases hc3 : s.passive.length > MAX_PASSIVE_DEGREE
    · rw [if_pos hc3, trim_fold_active]
    · rw [if_neg hc3]
  · intro hnd hhigh
    have hc1 : ¬ (s.active.length < DEFAULT_ACTIVE_DEGREE ∧ s.passive ≠ []) := by
      rintro ⟨hlt, _⟩
      unfold DEFAULT_ACTIVE_DEGREE at hlt
      unfold MAX_ACTIVE_DEGREE at hhigh
      omega
    have htake_nd : (s.active.take (s.active.length - MAX_ACTIVE_DEGREE)).Nodup :=
      (List.take_sublist _ _).nodup hnd
    have htake_mem : ∀ p ∈ s.active.take (s.active.length - MAX_ACTIVE_DEGREE),
        p ∈ s.active := fun p hp => List.take_subset _ _ hp
    have hfold := demote_fold_active_length
      (s.active.take (s.active.length - MAX_ACTIVE_DEGREE)) s htake_nd htake_mem
    have hmin : min (s.active.length - MAX_ACTIVE_DEGREE) s.active.length =
        s.active.length - MAX_ACTIVE_DEGREE :=
      Nat.min_eq_left (Nat.sub_le _ _)
    unfold degree_maintenance_tick
    dsimp only
    rw [if_neg hc1, if_pos hhigh]
    by_cases hc3 : s.passive.length > MAX_PASSIVE_DEGREE
    · rw [if_pos hc3, trim_fold_active, hfold, List.length_take, hmin]
      unfold MAX_ACTIVE_DEGREE at hhigh ⊢
      omega
    · rw [if_neg hc3, hfold, List.length_take, hmin]
      unfold MAX_ACTIVE_DEGREE at hhigh ⊢
      omega
  · intro hnd h8 h12 hfat
    have hc1 : ¬ (s.active.length < DEFAULT_ACTIVE_DEGREE ∧ s.passive ≠ []) := by
      rintro ⟨hlt, _⟩
      omega
    have hc2 : ¬ s.active.length > MAX_ACTIVE_DEGREE := by omega
    have htake_nd : (s.passive.take (s.passive.length - MAX_PASSIVE_DEGREE)).Nodup :=
      (List.take_sublist _ _).nodup hnd
    have htake_mem : ∀ p ∈ s.passive.take (s.passive.length - MAX_PASSIVE_DEGREE),
        p ∈ s.passive := fun p hp => List.take_subset _ _ hp
    have hfold := trim_fold_passive_length
      (s.passive.take (s.passive.length - MAX_PASSIVE_DEGREE)) s htake_nd htake_mem
    have hmin : min (s.passive.length - MAX_PASSIVE_DEGREE) s.passive.length =
        s.passive.length - MAX_PASSIVE_DEGREE :=
      Nat.min_eq_left (Nat.sub_le _ _)
    unfold degree_maintenance_tick
    dsimp only
    rw [if_neg hc1, if_neg hc2, if_pos hfat, hfold, List.length_take, hmin]
    unfold MAX_PASSIVE_DEGREE at hfat ⊢
    omega

/-- Witness for C5: the four cases at concrete states — one active peer
with two passive (promotes to three), eight active (unchanged), thirteen
active (demoted to twelve), and eight active with 129 passive (passive
trimmed to 128). -/
theorem c5_witness :
    (degree_maintenance_tick c5wLow).active.length =
      c5wLow.active.length +
        min (DEFAULT_ACTIVE_DEGREE - c5wLow.active.length) c5wLow.passive.length ∧
    (degree_maintenance_tick c5wMid).active = c5wMid.active ∧
    (degree_maintenance_tick c5wHigh).active.length = MAX_ACTIVE_DEGREE ∧
    (degree_maintenance_tick c5wFat).passive.length = MAX_PASSIVE_DEGREE :=
  ⟨(c5_degree_maintenance c5wLow).1 (by decide) (by decide) (by decide)
      (by decide),
   (c5_degree_maintenance c5wMid).2.1 (by decide) (by decide),
   (c5_degree_maintenance c5wHigh).2.2.1 (by decide) (by decide),
   (c5_degree_maintenance c5wFat).2.2.2 (by simp [c5wFat, List.nodup_range])
      (by decide) (by decide)
      (by simp [c5wFat, List.length_range, MAX_PASSIVE_DEGREE])⟩

/-- C6: `handle_ihave` requests exactly the ids that are neither in the
message cache nor already outstanding (each recorded with the sender and
the current time), sends a single IWANT for exactly those ids back to the
sender (nothing when there are none), never touches ids already cached or
outstanding, and leaves the cache unchanged — so every new
`outstanding_iwants` entry references an id absent from the cache at
insertion time. -/
theorem c6_handle_ihave (s : TopicState) (sender : PeerId) (topic : TopicId)
    (ids : List MessageId) (now : Nat) :
    (∀ id, id ∈ (ihave_loop s sender now ids).2 ↔
      (id ∈ ids ∧ has_message s id = false ∧
        alookup s.outstanding_iwants id = none)) ∧
    (∀ id, alookup (ihave_loop s sender now ids).1.outstanding_iwants id =
      if id ∈ (ihave_loop s sender now ids).2 then some (sender, now)
      else alookup s.outstanding_iwants id) ∧
    (ihave_loop s sender now ids).1.message_cache = s.message_cache ∧
    handle_ihave s sender topic ids now =
      Except.ok ((ihave_loop s sender now ids).1,
        if (ihave_loop s sender now ids).2 = [] then []
        else [(sender, iwant_message topic (ihave_loop s sender now ids).2)]) := by
  refine ⟨fun id => ihave_loop_requested_mem sender now ids s id,
    fun id => ihave_loop_lookup sender now ids s id,
    (ihave_loop_frame sender now ids s).1, ?_⟩
  unfold handle_ihave
  dsimp only
  by_cases h : (ihave_loop s sender now ids).2 = []
  · rw [if_pos h]
    rw [show (ihave_loop s sender now ids).2.isEmpty = true from by
      rw [h]; rfl]
    rfl
  · rw [if_neg h]
    rw [show (ihave_loop s sender now ids).2.isEmpty = false from by
      rcases hq : (ihave_loop s sender now ids).2 with _ | ⟨a, l⟩
      · exact absurd hq h
      · rfl]
    rfl

/-- C7: `handle_iwant` always returns `Ok`; it answers exactly the
requested ids present in the cache, each with an EAGER carrying the cached
header and payload; the requester is moved from lazy to eager exactly when
at least one id hit the cache; ids absent from the cache change nothing
and produce no reply; the cache contents are unchanged; and an entry whose
age exceeds `CACHE_TTL_SECS` is removed by the cleaner, after which it is
absent from the cache (so a later IWANT for it is answered with
nothing). -/
theorem c7_handle_iwant (s : TopicState) (sender : PeerId)
    (ids : List MessageId) (hnd : s.lazy_peers.Nodup) :
    handle_iwant s sender ids =
      Except.ok ((iwant_loop s sender ids).1,
        ((iwant_loop s sender ids).2).map (fun e =>
          (sender, { header := e.2.header, payload := some e.2.payload,
                     signature := sign_message e.2.header }))) ∧
    (iwant_loop s sender ids).2 =
      ids.filterMap (fun id =>
        (lruLookup s.message_cache id).map (fun c => (id, c))) ∧
    (iwant_loop s sender ids).1.eager_peers =
      (if ids.any (fun id => has_message s id) then graft_peer s sender
       else s).eager_peers ∧
    (iwant_loop s sender ids).1.lazy_peers =
      (if ids.any (fun id => has_message s id) then graft_peer s sender
       else s).lazy_peers ∧
    (∀ q, lruLookup (iwant_loop s sender ids).1.message_cache q =
      lruLookup s.message_cache q) ∧
    (∀ (now : Nat) (id : MessageId) (c : CachedMessage),
      (s.message_cache.map Prod.fst).Nodup →
      lruLookup s.message_cache id = some c →
      CACHE_TTL_SECS < now - c.timestamp →
      has_message (clean_cache s now) id = false) := by
  refine ⟨rfl, iwant_loop_to_send sender ids s,
    (iwant_loop_views sender ids s hnd).1,
    (iwant_loop_views sender ids s hnd).2,
    fun q => iwant_loop_cache_lookup sender ids s q, ?_⟩
  intro now id c hnodup hlook hexp
  have hf : (fun e : MessageId × CachedMessage =>
      decide (now - e.2.timestamp ≤ CACHE_TTL_SECS)) (id, c) = false := by
    simp only [decide_eq_false_iff_not]
    exact Nat.not_le.mpr hexp
  have hnone := alookup_filter_false
    (fun e : MessageId × CachedMessage =>
      decide (now - e.2.timestamp ≤ CACHE_TTL_SECS))
    s.message_cache id c hnodup hlook hf
  show (lruLookup (clean_cache s now).message_cache id).isSome = false
  unfold clean_cache lruLookup
  rw [hnone]
  rfl

/-- C8: a Suspect peer whose age strictly exceeds the suspect timeout of
`SWIM_SUSPECT_TIMEOUT_SECS = 3` seconds is set to Dead (with the tick
time) by one sweep of the suspect-timeout task; a Suspect peer within the
timeout is left untouched by the sweep; and no operation other than
`mark_alive` ever produces an Alive entry — the sweeper, `mark_suspect`
and `mark_dead` all map an Alive result only from an already-Alive
entry. -/
theorem c8_suspect_lifecycle :
    (∀ (st : SwimStates) (now : Nat) (p : PeerId) (e : SwimPeerEntry),
      (st.map Prod.fst).Nodup → alookup st p = some e →
      e.state = PeerState.suspect →
      ((now - e.last_update > SWIM_SUSPECT_TIMEOUT_SECS →
        alookup (suspect_timeout_tick st SWIM_SUSPECT_TIMEOUT_SECS now) p =
          some ⟨PeerState.dead, now⟩) ∧
       (now - e.last_update ≤ SWIM_SUSPECT_TIMEOUT_SECS →
        alookup (suspect_timeout_tick st SWIM_SUSPECT_TIMEOUT_SECS now) p =
          some e))) ∧
    (∀ (st : SwimStates) (timeout now : Nat) (p : PeerId) (e : SwimPeerEntry),
      alookup (suspect_timeout_tick st timeout now) p = some e →
      e.state = PeerState.alive → alookup st p = some e) ∧
    (∀ (st : SwimStates) (q : PeerId) (now : Nat) (p : PeerId)
      (e : SwimPeerEntry),
      alookup (mark_suspect st q now) p = some e →
      e.state = PeerState.alive → alookup st p = some e) ∧
    (∀ (st : SwimStates) (q : PeerId) (now : Nat) (p : PeerId)
      (e : SwimPeerEntry),
      alookup (mark_dead st q now) p = some e →
      e.state = PeerState.alive → alookup st p = some e) := by
  refine ⟨?_, ?_, ?_, ?_⟩
  · intro st now p e hnd hlook hs
    constructor
    · intro hgt
      unfold suspect_timeout_tick
      dsimp only
      rw [alookup_foldl_aInsert]
      have hmem : (p, e) ∈ st := alookup_some_mem st p e hlook
      have hf : ((p, e).2.state = PeerState.suspect &&
          decide (now - (p, e).2.last_update > SWIM_SUSPECT_TIMEOUT_SECS)) = true := by
        simp [hs, hgt]
      have hin : p ∈ (st.filter (fun e =>
          e.2.state = PeerState.suspect &&
            decide (now - e.2.last_update > SWIM_SUSPECT_TIMEOUT_SECS))).map
          (fun e => e.1) :=
        List.mem_map.mpr ⟨(p, e), List.mem_filter.mpr ⟨hmem, hf⟩, rfl⟩
      rw [if_pos hin]
    · intro hle
      unfold suspect_timeout_tick
      dsimp only
      rw [alookup_foldl_aInsert]
      have hnotin : p ∉ (st.filter (fun e =>
          e.2.state = PeerState.suspect &&
            decide (now - e.2.last_update > SWIM_SUSPECT_TIMEOUT_SECS))).map
          (fun e => e.1) := by
        intro hptmd
        obtain ⟨e', he'mem, he'p⟩ := List.mem_map.mp hptmd
        obtain ⟨hin, hf⟩ := List.mem_filter.mp he'mem
        have hpair : (p, e'.2) ∈ st := by
          rw [← he'p]
          simpa using hin
        have hl2 := mem_alookup_of_nodup st p e'.2 hnd hpair
        rw [hlook] at hl2
        injection hl2 with hl2'
        simp only [Bool.and_eq_true, decide_eq_true_eq] at hf
        rw [← hl2'] at hf
        omega
      rw [if_neg hnotin]
      exact hlook
  · intro st timeout now p e hlook halive
    unfold suspect_timeout_tick at hlook
    dsimp only at hlook
    rw [alookup_foldl_aInsert] at hlook
    by_cases hm : p ∈ (st.filter (fun e =>
        e.2.state = PeerState.suspect &&
          decide (now - e.2.last_update > timeout))).map (fun e => e.1)
    · rw [if_pos hm] at hlook
      injection hlook with h
      rw [← h] at halive
      simp at halive
    · rw [if_neg hm] at hlook
      exact hlook
  · intro st q now p e hlook halive
    unfold mark_suspect at hlook
    cases hq : alookup st q with
    | none => rw [hq] at hlook; exact hlook
    | some entry =>
      rw [hq] at hlook
      dsimp only at hlook
      by_cases hal : entry.state = PeerState.alive
      · rw [if_pos hal] at hlook
        rw [alookup_aInsert] at hlook
        by_cases hpq : p = q
        · rw [if_pos hpq] at hlook
          injection hlook with h
          rw [← h] at halive
          simp at halive
        · rw [if_neg hpq] at hlook
          exact hlook
      · rw [if_neg hal] at hlook
        exact hlook
  · intro st q now p e hlook halive
    unfold mark_dead at hlook
    rw [alookup_aInsert] at hlook
    by_cases hpq : p = q
    · rw [if_pos hpq] at hlook
      injection hlook with h
      rw [← h] at halive
      simp at halive
    · rw [if_neg hpq] at hlook
      exact hlook

/-- Witness for C7: on `c7State` (message 99 cached, peer 3 lazy) the
requester is grafted to eager because id 99 hit the cache, while id 42
missed. -/
theorem c7_witness :
    c7State.lazy_peers.Nodup ∧
    (iwant_loop c7State 3 [99, 42]).1.eager_peers =
      (if [99, 42].any (fun id => has_message c7State id) then
        graft_peer c7State 3 else c7State).eager_peers :=
  ⟨by decide, (c7_handle_iwant c7State 3 [99, 42] (by decide)).2.2.1⟩

/-- Witness for C8: peer 1, Suspect since time 10 in `c8State`, is Dead
after a sweep at time 14 (4 s > 3 s) and untouched after a sweep at time
12 (2 s ≤ 3 s). -/
theorem c8_witness :
    (c8State.map Prod.fst).Nodup ∧
    alookup c8State 1 = some ⟨PeerState.suspect, 10⟩ ∧
    alookup (suspect_timeout_tick c8State SWIM_SUSPECT_TIMEOUT_SECS 14) 1 =
      some ⟨PeerState.dead, 14⟩ ∧
    alookup (suspect_timeout_tick c8State SWIM_SUSPECT_TIMEOUT_SECS 12) 1 =
      some ⟨PeerState.suspect, 10⟩ :=
  ⟨by decide, by decide,
   (c8_suspect_lifecycle.1 c8State 14 1 ⟨PeerState.suspect, 10⟩ (by decide)
      (by decide) (by decide)).1 (by decide),
   (c8_suspect_lifecycle.1 c8State 12 1 ⟨PeerState.suspect, 10⟩ (by decide)
      (by decide) (by decide)).2 (by decide)⟩
